import Mathlib

/-!
Verification of the speculative decoding implementations in the sygaldry
repository against its natural-language specification.

The embedding covers:
* `greedy_decode` and `speculative_decode` from `llm_speculative_decoding_demo.py`;
* `SpeculativeDecoder._verification_phase`, `_draft_phase`, `_generate_tokens`,
  `_get_adaptive_speculation_length`, `SpeculationMetrics.acceptance_rate` and
  `SpeculativeDecodingConfig._validate_config` from `llm_speculative_decoding_gpt2.py`.

A model is embedded as the function taking a token sequence to the argmax of
each logits row produced by one teacher-forced forward pass: the decoding code
never inspects logits beyond their per-row argmax, so this captures exactly the
information the control algorithm consumes.  Out-of-range tensor indexing
(a Python `IndexError`) is modelled by `Option`: `none` is a crashed run.
-/

namespace SpecDec

/-- A deterministic greedy language model: `f s i` is the argmax of logits row
`i` when the model scores the token sequence `s` (rows `0 .. s.length - 1`
exist in the real tensor; access is bounds-checked separately). -/
abbrev Model := List Nat → Nat → Nat

/-- Checked access to the argmax of logits row `i` of `model(s)`.
Python `logits[i]` with `0 ≤ i`; `none` models the `IndexError` raised when
`i` is out of range. -/
def rowAt (f : Model) (s : List Nat) (i : Nat) : Option Nat :=
  if i < s.length then some (f s i) else none

/-- Python `logits[-1]`: the last logits row, `IndexError` (`none`) on an
empty sequence. -/
def lastRowAt (f : Model) (s : List Nat) : Option Nat :=
  if s = [] then none else some (f s (s.length - 1))

/-! ## llm_speculative_decoding_demo.py -/

/-- The loop body of `greedy_decode` (demo lines 83-89): run the model on the
current sequence, append the argmax of the last row, repeat. -/
def greedyLoop (f : Model) : Nat → List Nat → Option (List Nat)
  | 0, tokens => some tokens
  | n + 1, tokens =>
    match lastRowAt f tokens with
    | none => none
    | some t => greedyLoop f n (tokens ++ [t])

/-- `greedy_decode(model, context, max_new_tokens)` (demo lines 67-91): returns
the newly generated tokens (context stripped) and the number of model calls,
which is one per generated token. -/
def greedy_decode (f : Model) (context : List Nat) (maxNewTokens : Nat) :
    Option (List Nat × Nat) :=
  (greedyLoop f maxNewTokens context).map
    (fun tokens => (tokens.drop context.length, maxNewTokens))

/-- Draft phase of the demo `speculative_decode` (lines 136-147): propose up to
`k` tokens with the draft model, appending each guess to the working input, and
stop early once `len(generated) + len(guesses) >= max_new_tokens`.  `made` is
the number of guesses already produced (0 at the top-level call). -/
def draftLoop (draft : Model) (genLen maxNew : Nat) :
    Nat → List Nat → Nat → Option (List Nat)
  | 0, _, _ => some []
  | k + 1, input, made =>
    match lastRowAt draft input with
    | none => none
    | some g =>
      if maxNew ≤ genLen + made + 1 then some [g]
      else (draftLoop draft genLen maxNew k (input ++ [g]) (made + 1)).map (g :: ·)

/-- Verification scan of the demo (lines 162-178): for guess `i` (living at
index `pos = offset + i` of `full`), compare it with the argmax of logits row
`pos` of the target run on `full`; count matches and stop at the first
mismatch.  Note the row index: the demo reads `logits[offset + i]`, the row at
the guess's own position. -/
def demoScan (f : Model) (full : List Nat) : Nat → List Nat → Option Nat
  | _, [] => some 0
  | pos, g :: rest =>
    match rowAt f full pos with
    | none => none
    | some p =>
      if p = g then (demoScan f full (pos + 1) rest).map (· + 1) else some 0

/-- One round of the demo `speculative_decode`, as recorded in
`acceptance_steps`: number of proposed tokens, number accepted by the scan,
number of tokens the round appended to `generated`, and whether the round
appended a patch token from the target (step 3 of the loop). -/
structure DemoRound where
  proposed : Nat
  accepted : Nat
  added : Nat
  patched : Bool
deriving DecidableEq, Repr

/-- The evolving state / final result of the demo `speculative_decode`:
generated tokens, target-call count and the acceptance statistics counters
(`total_guesses`, `total_accepted`, `acceptance_steps`). -/
structure SpecResult where
  generated : List Nat
  targetCalls : Nat
  totalGuesses : Nat
  totalAccepted : Nat
  rounds : List DemoRound
deriving DecidableEq, Repr

/-- The initial state of the demo loop (lines 123-130). -/
def initSpec : SpecResult := ⟨[], 0, 0, 0, []⟩

/-- One iteration of the demo `while` loop (lines 132-203): draft phase,
single target call on `context + generated + guesses`, acceptance scan,
extend by the accepted guesses, and (if the budget is not yet exhausted)
append the target's token read from logits row `context_len + len(generated)`.
`none` models a Python `IndexError`. -/
def specStep (target draft : Model) (context : List Nat) (maxNew k : Nat)
    (st : SpecResult) : Option SpecResult :=
  (draftLoop draft st.generated.length maxNew k (context ++ st.generated) 0).bind
    fun guesses =>
      let full := context ++ st.generated ++ guesses
      let offset := context.length + st.generated.length
      (demoScan target full offset guesses).bind fun accepted =>
        let gen1 := st.generated ++ guesses.take accepted
        if gen1.length < maxNew then
          (rowAt target full (context.length + gen1.length)).bind fun tok =>
            some { generated := gen1 ++ [tok]
                   targetCalls := st.targetCalls + 1
                   totalGuesses := st.totalGuesses + guesses.length
                   totalAccepted := st.totalAccepted + accepted
                   rounds := st.rounds ++ [⟨guesses.length, accepted, accepted + 1, true⟩] }
        else
          some { generated := gen1
                 targetCalls := st.targetCalls + 1
                 totalGuesses := st.totalGuesses + guesses.length
                 totalAccepted := st.totalAccepted + accepted
                 rounds := st.rounds ++ [⟨guesses.length, accepted, accepted, false⟩] }

/-- The demo `while len(generated) < max_new_tokens` loop, with fuel.
The loop makes progress every round (see the progress theorems), so
`maxNew` units of fuel are enough; running out of fuel while the guard still
holds yields `none`, which is proved unreachable for sufficient fuel. -/
def specLoop (target draft : Model) (context : List Nat) (maxNew k : Nat) :
    Nat → SpecResult → Option SpecResult
  | 0, st => if st.generated.length < maxNew then none else some st
  | fuel + 1, st =>
    if st.generated.length < maxNew then
      (specStep target draft context maxNew k st).bind
        (specLoop target draft context maxNew k fuel)
    else some st

/-- `speculative_decode(target, draft, context, max_new_tokens, k)` (demo
lines 99-216). -/
def speculative_decode (target draft : Model) (context : List Nat)
    (maxNew k : Nat) : Option SpecResult :=
  specLoop target draft context maxNew k maxNew initSpec

/-- The demo's reported `overall_acceptance_rate` (lines 209-211):
`total_accepted / total_guesses if total_guesses > 0 else 0`. -/
def overallAcceptanceRate (r : SpecResult) : ℚ :=
  if 0 < r.totalGuesses then (r.totalAccepted : ℚ) / (r.totalGuesses : ℚ) else 0

/-! ## llm_speculative_decoding_gpt2.py -/

/-- The counters of `SpeculationMetrics` consumed by the control algorithm
(gpt2 lines 208-217); the timing fields play no role in any claim. -/
structure GMetrics where
  totalSpeculationRounds : Nat
  totalAcceptedTokens : Nat
deriving DecidableEq, Repr

/-- `SpeculationMetrics.acceptance_rate` (gpt2 lines 219-231): zero when no
rounds ran, otherwise `total_accepted_tokens / (total_speculation_rounds * 4)`
-- the denominator hardcodes `K = 4` ("Assuming K=4, should be parameterized"). -/
def acceptanceRate (m : GMetrics) : ℚ :=
  if m.totalSpeculationRounds = 0 then 0
  else if 0 < m.totalSpeculationRounds * 4 then
    (m.totalAcceptedTokens : ℚ) / ((m.totalSpeculationRounds : ℚ) * 4)
  else 0

/-- The configuration fields consumed by the gpt2 generation loop. -/
structure GConfig where
  speculationLength : Nat
  maxSpeculationLength : Nat
  maxSequenceLength : Nat
deriving DecidableEq, Repr

/-- `SpeculativeDecoder._get_adaptive_speculation_length` (gpt2 lines
762-782): base length until strictly more than 5 rounds have run; then grow
to `min(base+1, max)` above rate `0.8`, shrink to `max(1, base-1)` below
`0.3`, else base. -/
def getAdaptiveSpeculationLength (cfg : GConfig) (m : GMetrics) : Nat :=
  if 5 < m.totalSpeculationRounds then
    if 4 / 5 < acceptanceRate m then
      min (cfg.speculationLength + 1) cfg.maxSpeculationLength
    else if acceptanceRate m < 3 / 10 then
      max 1 (cfg.speculationLength - 1)
    else cfg.speculationLength
  else cfg.speculationLength

/-- `SpeculativeDecoder._draft_phase` (gpt2 lines 649-694): `k` sequential
draft calls, each appending the argmax of the last logits row, stopping early
once the working context reaches `max_sequence_length`. -/
def gptDraftLoop (draft : Model) (maxSeqLen : Nat) :
    Nat → List Nat → Option (List Nat)
  | 0, _ => some []
  | k + 1, ctx =>
    match lastRowAt draft ctx with
    | none => none
    | some t =>
      if maxSeqLen ≤ ctx.length + 1 then some [t]
      else (gptDraftLoop draft maxSeqLen k (ctx ++ [t])).map (t :: ·)

/-- The verification loop of `SpeculativeDecoder._verification_phase` (gpt2
lines 736-756), scanning the remaining draft tokens at index `i`.  `ctx` is
the context list the Python code appends to in place; `combined` and
`contextLength` are fixed before the loop.  The row read for the token at
`position` is `target_logits[0, position - 1]`; Python index `-1` (only
possible for an empty original context) wraps to the last row.  The result is
the final context together with `accepted_count`. -/
def verLoop (f : Model) (combined : List Nat) (contextLength : Nat) :
    List Nat → Nat → List Nat → Option (List Nat × Nat)
  | ctx, _, [] => some (ctx, 0)
  | ctx, i, d :: rest =>
    let position := contextLength + i
    if combined.length ≤ position then some (ctx, 0)
    else
      match (if position = 0 then lastRowAt f combined
             else rowAt f combined (position - 1)) with
      | none => none
      | some p =>
        if p = d then
          (verLoop f combined contextLength (ctx ++ [d]) (i + 1) rest).map
            (fun r => (r.1, r.2 + 1))
        else some (ctx ++ [p], 1)

/-- `SpeculativeDecoder._verification_phase` (gpt2 lines 696-756): score the
combined sequence once with the target, accept matching draft tokens, and on
the first mismatch append the target's own prediction (counted in
`accepted_count`) and stop. -/
def verificationPhase (f : Model) (context draftTokens : List Nat) :
    Option (List Nat × Nat) :=
  if draftTokens = [] then some (context, 0)
  else verLoop f (context ++ draftTokens) context.length context 0 draftTokens

/-- The target's greedy prediction for proposal `i` of `p` given accepted
context `c`: the argmax of the logits row immediately preceding the proposal's
position, i.e. row `c.length + i - 1` of the scored sequence `c ++ p`. -/
def targetPredAt (f : Model) (c p : List Nat) (i : Nat) : Nat :=
  f (c ++ p) (c.length + i - 1)

/-- Length of the longest prefix of a token list on which `pred` agrees,
scanning from index `i` and stopping at the first disagreement. -/
def matchedFrom (pred : Nat → Nat) : Nat → List Nat → Nat
  | _, [] => 0
  | i, g :: rest => if pred i = g then matchedFrom pred (i + 1) rest + 1 else 0

/-- The number of draft proposals genuinely matching the target's greedy
predictions in one gpt2 round (the substituted patch token not counted). -/
def genuineAccepted (f : Model) (c p : List Nat) : Nat :=
  matchedFrom (targetPredAt f c p) 0 p

/-- Ghost record of one gpt2 speculation round: tokens proposed (equal to the
number of draft-model calls made by `_draft_phase`), genuinely matching draft
tokens, and the code's `accepted_count` (which includes the substituted
token). -/
structure GRound where
  proposed : Nat
  genuine : Nat
  acceptedCount : Nat
deriving DecidableEq, Repr

/-- The state of `SpeculativeDecoder._generate_tokens` (gpt2 lines 560-647). -/
structure GState where
  generated : List Nat
  tokensGenerated : Nat
  consecutiveRejections : Nat
  metrics : GMetrics
  rounds : List GRound
deriving DecidableEq, Repr

/-- One iteration body of the `while tokens_generated < max_new_tokens` loop
of `_generate_tokens` (gpt2 lines 584-639), run when the guard holds:
adaptive `k` clamped to the remaining budget, draft phase, verification
phase, metrics update, and the consecutive-rejection circuit breaker
(`max_consecutive_rejections = 5`).  `Sum.inl st'` means the loop continues
with the updated state, `Sum.inr st'` that a `break` fired; `none` is a
propagated model-call failure (with a nonempty prompt no such failure is
reachable, so the configurable `fallback_to_standard` error recovery is never
exercised and is not modelled). -/
def gptStep (cfg : GConfig) (target draft : Model) (maxNew : Nat)
    (st : GState) : Option (GState ⊕ GState) :=
  let specLen := min (getAdaptiveSpeculationLength cfg st.metrics)
    (maxNew - st.tokensGenerated)
  if specLen = 0 then some (Sum.inr st)
  else
    (gptDraftLoop draft cfg.maxSequenceLength specLen st.generated).bind
      fun draftTokens =>
        if draftTokens = [] then some (Sum.inr st)
        else
          (verificationPhase target st.generated draftTokens).bind fun vr =>
            let st' : GState :=
              { generated := vr.1
                tokensGenerated := st.tokensGenerated + vr.2
                consecutiveRejections :=
                  if vr.2 = 0 then st.consecutiveRejections + 1 else 0
                metrics := ⟨st.metrics.totalSpeculationRounds + 1,
                            st.metrics.totalAcceptedTokens + vr.2⟩
                rounds := st.rounds ++
                  [⟨draftTokens.length,
                    genuineAccepted target st.generated draftTokens, vr.2⟩] }
            if vr.2 = 0 ∧ 5 ≤ st.consecutiveRejections + 1 then some (Sum.inr st')
            else some (Sum.inl st')

/-- The gpt2 generation loop, iterating `gptStep` until the token budget is
exhausted or a `break` fires, with fuel (`maxNew` units suffice: see the
progress theorems). -/
def gptLoop (cfg : GConfig) (target draft : Model) (maxNew : Nat) :
    Nat → GState → Option GState
  | 0, st => if st.tokensGenerated < maxNew then none else some st
  | fuel + 1, st =>
    if st.tokensGenerated < maxNew then
      (gptStep cfg target draft maxNew st).bind fun s =>
        match s with
        | Sum.inl st' => gptLoop cfg target draft maxNew fuel st'
        | Sum.inr stB => some stB
    else some st

/-- `_generate_tokens` run on a tokenized prompt: metrics reset, then the
speculation loop until the budget is exhausted or a `break` fires. -/
def gptGenerate (cfg : GConfig) (target draft : Model) (context : List Nat)
    (maxNew : Nat) : Option GState :=
  gptLoop cfg target draft maxNew maxNew ⟨context, 0, 0, ⟨0, 0⟩, []⟩

/-- The fields of `SpeculativeDecodingConfig` that `_validate_config` (gpt2
lines 86-120) examines, with the Python value ranges (ints may be negative,
floats are embedded as rationals). -/
structure SpeculativeDecodingConfig where
  speculationLength : Int
  maxSpeculationLength : Int
  temperature : ℚ
  modelDtype : String
  minAcceptanceRate : ℚ
deriving DecidableEq, Repr

/-- `SpeculativeDecodingConfig._validate_config` (gpt2 lines 90-120), run by
`__post_init__` at construction time: rejects a speculation length outside
`[1, max_speculation_length]`, a non-positive temperature and an unknown
dtype.  No other field is validated. -/
def validateConfig (c : SpeculativeDecodingConfig) : Except String Unit :=
  if ¬(1 ≤ c.speculationLength ∧ c.speculationLength ≤ c.maxSpeculationLength) then
    Except.error "speculation_length out of range"
  else if c.temperature ≤ 0 then
    Except.error "temperature must be positive"
  else if ¬(c.modelDtype = "float16" ∨ c.modelDtype = "bfloat16" ∨
      c.modelDtype = "float32") then
    Except.error "model_dtype invalid"
  else Except.ok ()

/-! ## Concrete models used in witnesses and counterexamples -/

/-- The model whose argmax is `0` at every row of every sequence. -/
def mZero : Model := fun _ _ => 0

/-- The model whose argmax is `1` at every row of every sequence. -/
def mOne : Model := fun _ _ => 1

/-- A causal greedy model: row `0` predicts `0`, every later row predicts `7`.
Row `i` depends only on the prefix of length `i + 1`, so this is realizable by
an ordinary autoregressive language model. -/
def mSwitch : Model := fun _ i => if i = 0 then 0 else 7

/-- The loop invariant of the demo `speculative_decode`: the counters and the
generated sequence agree with the per-round trace, every recorded round makes
progress, only a round that exactly exhausted the budget lacks a patch token,
and such a round can only be the last one. -/
def SpecInv (maxNew : Nat) (st : SpecResult) : Prop :=
  st.targetCalls = st.rounds.length ∧
  st.totalGuesses = (st.rounds.map DemoRound.proposed).sum ∧
  st.totalAccepted = (st.rounds.map DemoRound.accepted).sum ∧
  st.generated.length = (st.rounds.map DemoRound.added).sum ∧
  st.generated.length ≤ maxNew ∧
  (∀ rd ∈ st.rounds, rd.accepted ≤ rd.proposed ∧ 1 ≤ rd.added ∧
    rd.added = rd.accepted + (if rd.patched then 1 else 0)) ∧
  (st.generated.length < maxNew → ∀ rd ∈ st.rounds, rd.patched = true) ∧
  (∀ rd ∈ st.rounds.dropLast, rd.patched = true)

/-- The concrete result of `speculative_decode mZero mZero [10, 20] 2 4`:
one round proposing two tokens, both accepted, exhausting the budget with no
patch token (used to instantiate theorems with hypotheses). -/
def demoRunExample : SpecResult := ⟨[0, 0], 1, 2, 2, [⟨2, 2, 2, false⟩]⟩

/-! ## Helper lemmas: the demo loop -/

/-- The acceptance scan never accepts more guesses than were proposed. -/
theorem demoScan_le (f : Model) (full : List Nat) :
    ∀ (gs : List Nat) (pos a : Nat), demoScan f full pos gs = some a →
      a ≤ gs.length := by
  intro gs
  induction gs with
  | nil =>
    intro pos a h
    simp only [demoScan, Option.some.injEq] at h
    omega
  | cons g rest ih =>
    intro pos a h
    simp only [demoScan] at h
    split at h
    · exact absurd h (by simp)
    · split at h
      · rw [Option.map_eq_some'] at h
        obtain ⟨a', ha', rfl⟩ := h
        have := ih (pos + 1) a' ha'
        simp only [List.length_cons]
        omega
      · rw [Option.some.injEq] at h
        omega

/-- The draft loop never proposes beyond the remaining token budget: it
breaks as soon as `len(generated) + len(guesses)` reaches `max_new_tokens`. -/
theorem draftLoop_le (draft : Model) (genLen maxNew : Nat) :
    ∀ (k : Nat) (input : List Nat) (made : Nat) (gs : List Nat),
      genLen + made < maxNew →
      draftLoop draft genLen maxNew k input made = some gs →
      genLen + made + gs.length ≤ maxNew := by
  intro k
  induction k with
  | zero =>
    intro input made gs hlt h
    simp only [draftLoop, Option.some.injEq] at h
    subst h
    simp only [List.length_nil]
    omega
  | succ k ih =>
    intro input made gs hlt h
    simp only [draftLoop] at h
    split at h
    · exact absurd h (by simp)
    · rename_i g _
      split at h
      · rw [Option.some.injEq] at h
        subst h
        simp only [List.length_cons, List.length_nil]
        omega
      · rw [Option.map_eq_some'] at h
        obtain ⟨gs', hgs', rfl⟩ := h
        have := ih (input ++ [g]) (made + 1) gs' (by omega) hgs'
        simp only [List.length_cons]
        omega

/-- Anatomy of one successful round of the demo loop, started with budget
remaining: the target is called once, exactly one round is recorded, the
counters grow by the round's figures, the round makes progress, and only a
round that ends exactly at the budget lacks a patch token. -/
theorem specStep_some {target draft : Model} {context : List Nat}
    {maxNew k : Nat} {st st' : SpecResult}
    (hlt : st.generated.length < maxNew)
    (h : specStep target draft context maxNew k st = some st') :
    st'.targetCalls = st.targetCalls + 1 ∧
    st'.generated.length ≤ maxNew ∧
    ∃ rd : DemoRound,
      st'.rounds = st.rounds ++ [rd] ∧
      st'.totalGuesses = st.totalGuesses + rd.proposed ∧
      st'.totalAccepted = st.totalAccepted + rd.accepted ∧
      st'.generated.length = st.generated.length + rd.added ∧
      rd.accepted ≤ rd.proposed ∧
      1 ≤ rd.added ∧
      rd.added = rd.accepted + (if rd.patched then 1 else 0) ∧
      (rd.patched = false → st'.generated.length = maxNew) := by
  simp only [specStep, Option.bind_eq_some] at h
  obtain ⟨guesses, hg, h⟩ := h
  obtain ⟨accepted, hs, h⟩ := h
  have hacc : accepted ≤ guesses.length := demoScan_le _ _ _ _ _ hs
  have hbound : st.generated.length + guesses.length ≤ maxNew := by
    have := draftLoop_le draft st.generated.length maxNew k
      (context ++ st.generated) 0 guesses (by omega) hg
    omega
  have hgen1 : (st.generated ++ guesses.take accepted).length =
      st.generated.length + accepted := by
    simp [List.length_take, Nat.min_eq_left hacc]
  split at h
  case isTrue hif =>
    rw [Option.bind_eq_some] at h
    obtain ⟨tok, htok, h⟩ := h
    rw [Option.some.injEq] at h
    subst h
    simp only [List.length_append, List.length_take, List.length_cons,
      List.length_nil, Nat.min_eq_left hacc] at hif
    refine ⟨rfl, ?_, ⟨guesses.length, accepted, accepted + 1, true⟩,
      rfl, rfl, rfl, ?_, hacc, ?_, by simp, ?_⟩
    · show ((st.generated ++ guesses.take accepted) ++ [tok]).length ≤ maxNew
      simp only [List.length_append, List.length_take, List.length_cons,
        List.length_nil, Nat.min_eq_left hacc]
      omega
    · show ((st.generated ++ guesses.take accepted) ++ [tok]).length =
        st.generated.length + (accepted + 1)
      simp only [List.length_append, List.length_take, List.length_cons,
        List.length_nil, Nat.min_eq_left hacc]
      omega
    · show 1 ≤ accepted + 1
      omega
    · intro hF
      exact absurd hF (by simp)
  case isFalse hif =>
    rw [Option.some.injEq] at h
    subst h
    simp only [List.length_append, List.length_take, List.length_nil,
      Nat.min_eq_left hacc] at hif
    refine ⟨rfl, ?_, ⟨guesses.length, accepted, accepted, false⟩,
      rfl, rfl, rfl, ?_, hacc, ?_, by simp, ?_⟩
    · show (st.generated ++ guesses.take accepted).length ≤ maxNew
      rw [hgen1]
      omega
    · show (st.generated ++ guesses.take accepted).length =
        st.generated.length + accepted
      exact hgen1
    · show 1 ≤ accepted
      omega
    · intro _
      show (st.generated ++ guesses.take accepted).length = maxNew
      rw [hgen1]
      omega

/-- The initial demo state satisfies the loop invariant. -/
theorem specInv_init (maxNew : Nat) : SpecInv maxNew initSpec := by
  simp [SpecInv, initSpec]

/-- A successful round preserves the demo loop invariant. -/
theorem specStep_inv {target draft : Model} {context : List Nat}
    {maxNew k : Nat} {st st' : SpecResult}
    (hlt : st.generated.length < maxNew) (hinv : SpecInv maxNew st)
    (h : specStep target draft context maxNew k st = some st') :
    SpecInv maxNew st' := by
  obtain ⟨hcalls, hle, rd, hrounds, hguess, haccept, hlen, hap, hone, hadd, hpf⟩ :=
    specStep_some hlt h
  obtain ⟨ic, ig, ia, il, ib, irs, ipat, idl⟩ := hinv
  refine ⟨?_, ?_, ?_, ?_, hle, ?_, ?_, ?_⟩
  · rw [hcalls, ic, hrounds]; simp
  · rw [hguess, ig, hrounds]; simp
  · rw [haccept, ia, hrounds]; simp
  · rw [hlen, il, hrounds]; simp
  · intro rd' hmem
    rw [hrounds] at hmem
    rcases List.mem_append.mp hmem with hm | hm
    · exact irs rd' hm
    · rcases List.mem_singleton.mp hm with rfl
      exact ⟨hap, hone, hadd⟩
  · intro hlt' rd' hmem
    rw [hrounds] at hmem
    rcases List.mem_append.mp hmem with hm | hm
    · exact ipat hlt rd' hm
    · rcases List.mem_singleton.mp hm with rfl
      cases hpb : rd'.patched with
      | true => rfl
      | false => exact absurd hlt' (by have := hpf hpb; omega)
  · rw [hrounds, List.dropLast_concat]
    exact ipat hlt

/-- Any completed demo run satisfies the invariant and generated exactly
`maxNew` tokens. -/
theorem specLoop_some {target draft : Model} {context : List Nat}
    {maxNew k : Nat} :
    ∀ (fuel : Nat) (st r : SpecResult), SpecInv maxNew st →
      specLoop target draft context maxNew k fuel st = some r →
      SpecInv maxNew r ∧ r.generated.length = maxNew := by
  intro fuel
  induction fuel with
  | zero =>
    intro st r hinv h
    simp only [specLoop] at h
    split at h
    · exact absurd h (by simp)
    · rw [Option.some.injEq] at h
      subst h
      rename_i hge
      exact ⟨hinv, by have := hinv.2.2.2.2.1; omega⟩
  | succ fuel ih =>
    intro st r hinv h
    simp only [specLoop] at h
    split at h
    · rename_i hguard
      rw [Option.bind_eq_some] at h
      obtain ⟨st', hstep, hrest⟩ := h
      exact ih st' r (specStep_inv hguard hinv hstep) hrest
    · rw [Option.some.injEq] at h
      subst h
      rename_i hge
      exact ⟨hinv, by have := hinv.2.2.2.2.1; omega⟩

/-- Fuel-insensitivity of the demo loop: any fuel covering the remaining
budget computes the same result, i.e. the `while` loop needs at most
`maxNew` iterations. -/
theorem specLoop_fuel {target draft : Model} {context : List Nat}
    {maxNew k : Nat} :
    ∀ (fuel₁ fuel₂ : Nat) (st : SpecResult),
      maxNew ≤ st.generated.length + fuel₁ →
      maxNew ≤ st.generated.length + fuel₂ →
      specLoop target draft context maxNew k fuel₁ st =
        specLoop target draft context maxNew k fuel₂ st := by
  intro fuel₁
  induction fuel₁ with
  | zero =>
    intro fuel₂ st h1 h2
    have hge : ¬ st.generated.length < maxNew := by omega
    cases fuel₂ with
    | zero => rfl
    | succ f2 => simp only [specLoop, if_neg hge]
  | succ f1 ih =>
    intro fuel₂ st h1 h2
    by_cases hguard : st.generated.length < maxNew
    · cases fuel₂ with
      | zero => exact absurd hguard (by omega)
      | succ f2 =>
        simp only [specLoop, if_pos hguard]
        cases hstep : specStep target draft context maxNew k st with
        | none => rfl
        | some st' =>
          simp only [Option.some_bind]
          obtain ⟨-, -, rd, -, -, -, hlen, -, hone, -, -⟩ :=
            specStep_some hguard hstep
          exact ih f2 st' (by omega) (by omega)
    · cases fuel₂ with
      | zero => simp only [specLoop, if_neg hguard]
      | succ f2 => simp only [specLoop, if_neg hguard]

/-- `greedy_decode`'s loop always succeeds on a nonempty sequence and adds
exactly one token per iteration. -/
theorem greedyLoop_length (f : Model) :
    ∀ (n : Nat) (tokens : List Nat), tokens ≠ [] →
      ∃ out, greedyLoop f n tokens = some out ∧
        out.length = tokens.length + n := by
  intro n
  induction n with
  | zero =>
    intro tokens h
    exact ⟨tokens, rfl, by simp⟩
  | succ n ih =>
    intro tokens h
    obtain ⟨out, hout, hlen⟩ :=
      ih (tokens ++ [f tokens (tokens.length - 1)]) (by simp)
    have hl : lastRowAt f tokens = some (f tokens (tokens.length - 1)) := by
      rw [lastRowAt, if_neg h]
    refine ⟨out, ?_, ?_⟩
    · simp only [greedyLoop, hl]
      exact hout
    · rw [hlen]
      simp only [List.length_append, List.length_cons, List.length_nil]
      omega

/-- A list of positive naturals is at least as long as its sum demands:
`length ≤ sum`. -/
theorem length_le_sum_of_one_le :
    ∀ l : List Nat, (∀ x ∈ l, 1 ≤ x) → l.length ≤ l.sum := by
  intro l
  induction l with
  | nil => simp
  | cons a t ih =>
    intro h
    have ha := h a (by simp)
    have := ih (fun x hx => h x (by simp [hx]))
    simp only [List.length_cons, List.sum_cons]
    omega

/-- For a list of positive naturals, the sum equals the length exactly when
every entry is `1`. -/
theorem length_eq_sum_iff :
    ∀ l : List Nat, (∀ x ∈ l, 1 ≤ x) →
      (l.length = l.sum ↔ ∀ x ∈ l, x = 1) := by
  intro l
  induction l with
  | nil => simp
  | cons a t ih =>
    intro h
    have ha := h a (by simp)
    have ht : ∀ x ∈ t, 1 ≤ x := fun x hx => h x (by simp [hx])
    have hle := length_le_sum_of_one_le t ht
    constructor
    · intro heq x hx
      simp only [List.length_cons, List.sum_cons] at heq
      rcases List.mem_cons.mp hx with rfl | hx'
      · omega
      · have h2 : t.length = t.sum := by omega
        exact ((ih ht).mp h2) x hx'
    · intro hall
      simp only [List.length_cons, List.sum_cons]
      have h1 : a = 1 := hall a (by simp)
      have h2 : t.length = t.sum := (ih ht).mpr (fun x hx => hall x (by simp [hx]))
      omega

/-! ## Helper lemmas: the gpt2 verifier and loop -/

/-- The matching scan never exceeds the list length. -/
theorem matchedFrom_le (pred : Nat → Nat) :
    ∀ (l : List Nat) (i : Nat), matchedFrom pred i l ≤ l.length := by
  intro l
  induction l with
  | nil => intro i; simp [matchedFrom]
  | cons g rest ih =>
    intro i
    simp only [matchedFrom, List.length_cons]
    split
    · have := ih (i + 1); omega
    · omega

/-- Inside the matched prefix the prediction agrees with the list. -/
theorem matchedFrom_agree (pred : Nat → Nat) :
    ∀ (l : List Nat) (i j : Nat), j < matchedFrom pred i l →
      pred (i + j) = l.getD j 0 := by
  intro l
  induction l with
  | nil => intro i j hj; simp [matchedFrom] at hj
  | cons g rest ih =>
    intro i j hj
    simp only [matchedFrom] at hj
    split at hj
    · rename_i hpred
      cases j with
      | zero => simpa using hpred
      | succ j' =>
        rw [List.getD_cons_succ]
        have harith : i + (j' + 1) = (i + 1) + j' := by omega
        rw [harith]
        exact ih (i + 1) j' (by omega)
    · omega

/-- Just past the matched prefix the prediction disagrees (when the scan
stopped before the end of the list). -/
theorem matchedFrom_miss (pred : Nat → Nat) :
    ∀ (l : List Nat) (i : Nat), matchedFrom pred i l < l.length →
      pred (i + matchedFrom pred i l) ≠ l.getD (matchedFrom pred i l) 0 := by
  intro l
  induction l with
  | nil => intro i h; simp [matchedFrom] at h
  | cons g rest ih =>
    intro i h
    simp only [matchedFrom] at h ⊢
    by_cases hpred : pred i = g
    · rw [if_pos hpred] at h ⊢
      rw [List.getD_cons_succ]
      have harith :
          i + (matchedFrom pred (i + 1) rest + 1) =
            (i + 1) + matchedFrom pred (i + 1) rest := by omega
      rw [harith]
      refine ih (i + 1) ?_
      simp only [List.length_cons] at h
      omega
    · rw [if_neg hpred] at h ⊢
      simpa using hpred

/-- Characterisation of the gpt2 verification loop: with a nonempty original
context the bounds check never fires, the row read for the token at index
`c.length + i` is row `c.length + i - 1` of the combined sequence, matching
draft tokens are appended one by one, and the first mismatch appends the
target's own prediction, adds one to the accepted count and stops. -/
theorem verLoop_spec (f : Model) (c p : List Nat) (hc : 0 < c.length) :
    ∀ (rest : List Nat) (i : Nat) (ctx : List Nat),
      c.length + i + rest.length = (c ++ p).length →
      verLoop f (c ++ p) c.length ctx i rest =
        some (if matchedFrom (targetPredAt f c p) i rest = rest.length
              then (ctx ++ rest, rest.length)
              else (ctx ++ rest.take (matchedFrom (targetPredAt f c p) i rest) ++
                    [targetPredAt f c p (i + matchedFrom (targetPredAt f c p) i rest)],
                    matchedFrom (targetPredAt f c p) i rest + 1)) := by
  intro rest
  induction rest with
  | nil =>
    intro i ctx hlen
    simp [verLoop, matchedFrom]
  | cons d rest ih =>
    intro i ctx hlen
    simp only [List.length_cons, List.length_append] at hlen
    have hpos : c.length + i < (c ++ p).length := by
      simp only [List.length_append]; omega
    simp only [verLoop]
    rw [if_neg (by omega : ¬ (c ++ p).length ≤ c.length + i)]
    rw [if_neg (by omega : ¬ c.length + i = 0)]
    rw [rowAt, if_pos (by omega : c.length + i - 1 < (c ++ p).length)]
    rw [show f (c ++ p) (c.length + i - 1) = targetPredAt f c p i from rfl]
    dsimp only
    by_cases hpd : targetPredAt f c p i = d
    · have hm : matchedFrom (targetPredAt f c p) i (d :: rest) =
          matchedFrom (targetPredAt f c p) (i + 1) rest + 1 := by
        simp [matchedFrom, hpd]
      rw [if_pos hpd, hm,
        ih (i + 1) (ctx ++ [d]) (by simp only [List.length_append]; omega),
        Option.map_some']
      by_cases hfull : matchedFrom (targetPredAt f c p) (i + 1) rest = rest.length
      · rw [if_pos hfull, if_pos (by simp only [List.length_cons]; omega),
          Option.some.injEq]
        subst hpd
        simp [List.append_assoc]
      · rw [if_neg hfull, if_neg (by simp only [List.length_cons]; omega),
          Option.some.injEq]
        subst hpd
        rw [List.take_succ_cons]
        have harith :
            i + (matchedFrom (targetPredAt f c p) (i + 1) rest + 1) =
              (i + 1) + matchedFrom (targetPredAt f c p) (i + 1) rest := by omega
        rw [harith]
        simp [List.append_assoc]
    · have hm : matchedFrom (targetPredAt f c p) i (d :: rest) = 0 := by
        simp [matchedFrom, hpd]
      rw [if_neg hpd, hm, if_neg (by simp only [List.length_cons]; omega),
        Option.some.injEq]
      simp

/-- `_verification_phase` on a nonempty context and nonempty proposals:
closed form with the matched-prefix count. -/
theorem verificationPhase_spec (f : Model) (c p : List Nat)
    (hc : 0 < c.length) (hp : p ≠ []) :
    verificationPhase f c p =
      some (if genuineAccepted f c p = p.length
            then (c ++ p, p.length)
            else (c ++ p.take (genuineAccepted f c p) ++
                  [targetPredAt f c p (genuineAccepted f c p)],
                  genuineAccepted f c p + 1)) := by
  unfold verificationPhase
  rw [if_neg hp]
  have h := verLoop_spec f c p hc p 0 c (by simp)
  simpa [genuineAccepted] using h

/-- `_verification_phase` always accepts at least one token for nonempty
proposals (the substituted target token counts) and never empties the
context. -/
theorem verificationPhase_progress (f : Model) (c p : List Nat)
    (hc : 0 < c.length) (hp : p ≠ []) (vr : List Nat × Nat)
    (h : verificationPhase f c p = some vr) :
    1 ≤ vr.2 ∧ vr.1 ≠ [] := by
  rw [verificationPhase_spec f c p hc hp, Option.some.injEq] at h
  subst h
  have hcne : c ≠ [] := by
    intro hh
    rw [hh] at hc
    simp at hc
  by_cases hfull : genuineAccepted f c p = p.length
  · rw [if_pos hfull]
    constructor
    · show 1 ≤ p.length
      exact List.length_pos.mpr hp
    · show c ++ p ≠ []
      simp [hcne]
  · rw [if_neg hfull]
    constructor
    · show 1 ≤ genuineAccepted f c p + 1
      omega
    · simp

/-- A gpt2 speculation round that continues the loop accepted at least one
token and kept the context nonempty. -/
theorem gptStep_inl {cfg : GConfig} {target draft : Model} {maxNew : Nat}
    {st st' : GState} (hne : st.generated ≠ [])
    (h : gptStep cfg target draft maxNew st = some (Sum.inl st')) :
    st.tokensGenerated + 1 ≤ st'.tokensGenerated ∧ st'.generated ≠ [] := by
  simp only [gptStep] at h
  split at h
  · exact absurd h (by simp)
  · rw [Option.bind_eq_some] at h
    obtain ⟨draftTokens, hdt, h⟩ := h
    split at h
    · exact absurd h (by simp)
    · rename_i hdne
      rw [Option.bind_eq_some] at h
      obtain ⟨vr, hvr, h⟩ := h
      split at h
      · exact absurd h (by simp)
      · rw [Option.some.injEq, Sum.inl.injEq] at h
        subst h
        obtain ⟨h1, h2⟩ := verificationPhase_progress target st.generated
          draftTokens (List.length_pos.mpr hne) hdne vr hvr
        refine ⟨?_, h2⟩
        show st.tokensGenerated + 1 ≤ st.tokensGenerated + vr.2
        omega

/-- Fuel-insensitivity of the gpt2 loop: with a nonempty context, any fuel
covering the remaining budget computes the same result, so the loop needs at
most `maxNew` iterations. -/
theorem gptLoop_fuel {cfg : GConfig} {target draft : Model} {maxNew : Nat} :
    ∀ (fuel₁ fuel₂ : Nat) (st : GState), st.generated ≠ [] →
      maxNew ≤ st.tokensGenerated + fuel₁ →
      maxNew ≤ st.tokensGenerated + fuel₂ →
      gptLoop cfg target draft maxNew fuel₁ st =
        gptLoop cfg target draft maxNew fuel₂ st := by
  intro fuel₁
  induction fuel₁ with
  | zero =>
    intro fuel₂ st hne h1 h2
    have hge : ¬ st.tokensGenerated < maxNew := by omega
    cases fuel₂ with
    | zero => rfl
    | succ f2 => simp only [gptLoop, if_neg hge]
  | succ f1 ih =>
    intro fuel₂ st hne h1 h2
    by_cases hguard : st.tokensGenerated < maxNew
    · cases fuel₂ with
      | zero => exact absurd hguard (by omega)
      | succ f2 =>
        simp only [gptLoop, if_pos hguard]
        cases hstep : gptStep cfg target draft maxNew st with
        | none => rfl
        | some s =>
          cases s with
          | inr stB => simp only [Option.some_bind]
          | inl st' =>
            simp only [Option.some_bind]
            obtain ⟨hp, hne'⟩ := gptStep_inl hne hstep
            exact ih f2 st' hne' (by omega) (by omega)
    · cases fuel₂ with
      | zero => simp only [gptLoop, if_neg hguard]
      | succ f2 => simp only [gptLoop, if_neg hguard]

/-! ## Claims -/

/-- Claim C1 (code bug): the demo's `speculative_decode` is NOT equivalent to
`greedy_decode`, even for a causal deterministic target used as its own
draft.  The verifier reads the logits row at each proposal's own position
(`offset + i`) instead of the preceding row, so it compares the proposal with
the prediction for the following position.  At target = draft = `mSwitch`,
context `[0]`, one new token, `k = 1`: greedy generates `[0]` while
speculative decoding generates `[7]`. -/
theorem C1_offbyone_divergence :
    (speculative_decode mSwitch mSwitch [0] 1 1).map SpecResult.generated =
      some [7] ∧
    greedy_decode mSwitch [0] 1 = some ([0], 1) := by decide

/-- Claim C2 (code bug): in the spec's own scenario family — draft and
target identical, context `[10, 20]`, `k = 4`, 20 new tokens — the constant
model `mZero` makes round one accept all four proposals, after which the
patch step reads logits row 6 of a 6-row tensor: a Python `IndexError`
(`none`), not 5 target calls and 20 tokens.  Greedy decoding on the same
inputs returns 20 tokens in 20 calls. -/
theorem C2_full_accept_crash :
    speculative_decode mZero mZero [10, 20] 20 4 = none ∧
    greedy_decode mZero [10, 20] 20 = some (List.replicate 20 0, 20) := by
  decide

/-- Claim C3 (confirmed for `SpeculativeDecoder._verification_phase`): the
verifier scores `c ++ p` once; the target's prediction for proposal `i` is
the argmax of the row immediately preceding it (row `c.length + i - 1`, the
content of `targetPredAt`); every proposal inside the matched prefix agrees
with that prediction; on a full match all proposals are appended; at the
first mismatch the target's own prediction is appended instead, the accepted
count is incremented by one for the substitution, and no later proposal is
examined. -/
theorem C3_verifier_characterization (f : Model) (c p : List Nat)
    (hc : 0 < c.length) (hp : p ≠ []) :
    genuineAccepted f c p ≤ p.length ∧
    (∀ i < genuineAccepted f c p, targetPredAt f c p i = p.getD i 0) ∧
    (genuineAccepted f c p < p.length →
      targetPredAt f c p (genuineAccepted f c p) ≠
        p.getD (genuineAccepted f c p) 0) ∧
    (genuineAccepted f c p = p.length →
      verificationPhase f c p = some (c ++ p, p.length)) ∧
    (genuineAccepted f c p < p.length →
      verificationPhase f c p =
        some (c ++ p.take (genuineAccepted f c p) ++
              [targetPredAt f c p (genuineAccepted f c p)],
              genuineAccepted f c p + 1)) := by
  refine ⟨matchedFrom_le _ p 0, ?_, ?_, ?_, ?_⟩
  · intro i hi
    have h := matchedFrom_agree (targetPredAt f c p) p 0 i hi
    simpa using h
  · intro hlt
    have h := matchedFrom_miss (targetPredAt f c p) p 0 hlt
    simpa [genuineAccepted] using h
  · intro hfull
    rw [verificationPhase_spec f c p hc hp, if_pos hfull]
  · intro hlt
    rw [verificationPhase_spec f c p hc hp, if_neg (by omega)]

/-- Witness for C3 at a concrete input: target `mZero`, context `[5]`,
proposals `[1, 2]`; the first proposal mismatches, so the verifier appends
the target's prediction `0` and reports one accepted token. -/
theorem C3_verifier_characterization_witness :
    0 < ([5] : List Nat).length ∧ ([1, 2] : List Nat) ≠ [] ∧
    verificationPhase mZero [5] [1, 2] = some ([5, 0], 1) := by
  refine ⟨by decide, by decide, ?_⟩
  rw [(C3_verifier_characterization mZero [5] [1, 2] (by decide)
    (by decide)).2.2.2.2 (by decide)]
  decide

/-- Claim C4 (confirmed): every iteration of either speculative loop that
starts with budget remaining appends at least one token (accepted draft
tokens and/or the patched target token), so both loops need at most
`max_new_tokens` iterations — stated as fuel-insensitivity at `maxNew`. -/
theorem C4_round_progress (target draft : Model) (context : List Nat)
    (maxNew k : Nat) (_hk : 1 ≤ k) :
    (∀ st st' : SpecResult, st.generated.length < maxNew →
      specStep target draft context maxNew k st = some st' →
      st.generated.length + 1 ≤ st'.generated.length) ∧
    (∀ extra : Nat,
      specLoop target draft context maxNew k (maxNew + extra) initSpec =
        specLoop target draft context maxNew k maxNew initSpec) ∧
    (∀ (cfg : GConfig) (st st' : GState), st.generated ≠ [] →
      gptStep cfg target draft maxNew st = some (Sum.inl st') →
      st.tokensGenerated + 1 ≤ st'.tokensGenerated) ∧
    (∀ (cfg : GConfig) (c : List Nat) (extra : Nat), c ≠ [] →
      gptLoop cfg target draft maxNew (maxNew + extra) ⟨c, 0, 0, ⟨0, 0⟩, []⟩ =
        gptLoop cfg target draft maxNew maxNew ⟨c, 0, 0, ⟨0, 0⟩, []⟩) := by
  refine ⟨?_, ?_, ?_, ?_⟩
  · intro st st' hlt h
    obtain ⟨-, -, rd, -, -, -, hlen, -, hone, -, -⟩ := specStep_some hlt h
    omega
  · intro extra
    exact specLoop_fuel (maxNew + extra) maxNew initSpec
      (by show maxNew ≤ 0 + (maxNew + extra); omega)
      (by show maxNew ≤ 0 + maxNew; omega)
  · intro cfg st st' hne h
    exact (gptStep_inl hne h).1
  · intro cfg c extra hcne
    exact gptLoop_fuel (maxNew + extra) maxNew ⟨c, 0, 0, ⟨0, 0⟩, []⟩ hcne
      (by show maxNew ≤ 0 + (maxNew + extra); omega)
      (by show maxNew ≤ 0 + maxNew; omega)

/-- Witness for C4 at concrete inputs: one extra unit of fuel does not change
the demo run. -/
theorem C4_round_progress_witness :
    specLoop mZero mZero [0] 1 1 (1 + 1) initSpec =
      specLoop mZero mZero [0] 1 1 1 initSpec :=
  (C4_round_progress mZero mZero [0] 1 1 (by decide)).2.1 1

/-- Claim C5 (code bug): with a target predicting `0` everywhere and a draft
proposing `1` everywhere, every round has zero genuine draft acceptance, yet
after five such consecutive rounds the sixth round still calls the draft
model (it proposes one token).  `accepted_count` includes the substituted
patch token, so it is never `0`, `consecutive_rejections` never leaves `0`,
and the circuit breaker is dead code. -/
theorem C5_breaker_never_fires :
    (gptGenerate ⟨4, 10, 1000000⟩ mZero mOne [5] 6).map
      (fun st => st.rounds.map fun rd => (rd.genuine, rd.proposed)) =
      some [(0, 4), (0, 4), (0, 4), (0, 3), (0, 2), (0, 1)] := by decide

/-- Claim C6 (amended, demo side): for every completed run of the demo
`speculative_decode`, the reported counters equal the per-round sums — every
proposed token counts, examined or not — each round accepts at most as many
tokens as it proposed, and the reported overall rate is
`total_accepted / total_guesses` (0 when nothing was proposed). -/
theorem C6_demo_acceptance_rate (target draft : Model) (context : List Nat)
    (maxNew k : Nat) (r : SpecResult)
    (h : speculative_decode target draft context maxNew k = some r) :
    r.totalGuesses = (r.rounds.map DemoRound.proposed).sum ∧
    r.totalAccepted = (r.rounds.map DemoRound.accepted).sum ∧
    (∀ rd ∈ r.rounds, rd.accepted ≤ rd.proposed) ∧
    overallAcceptanceRate r =
      (if 0 < r.totalGuesses
       then (r.totalAccepted : ℚ) / (r.totalGuesses : ℚ) else 0) := by
  obtain ⟨hinv, -⟩ := specLoop_some maxNew initSpec r (specInv_init maxNew) h
  exact ⟨hinv.2.1, hinv.2.2.1, fun rd hrd => (hinv.2.2.2.2.2.1 rd hrd).1, rfl⟩

/-- Witness for C6 at the concrete run `speculative_decode mZero mZero
[10, 20] 2 4`. -/
theorem C6_demo_acceptance_rate_witness :
    demoRunExample.totalGuesses =
      (demoRunExample.rounds.map DemoRound.proposed).sum ∧
    demoRunExample.totalAccepted =
      (demoRunExample.rounds.map DemoRound.accepted).sum ∧
    (∀ rd ∈ demoRunExample.rounds, rd.accepted ≤ rd.proposed) ∧
    overallAcceptanceRate demoRunExample =
      (if 0 < demoRunExample.totalGuesses
       then (demoRunExample.totalAccepted : ℚ) / (demoRunExample.totalGuesses : ℚ)
       else 0) :=
  C6_demo_acceptance_rate mZero mZero [10, 20] 2 4 demoRunExample (by decide)

/-- Counterexample to C6 on the gpt2 implementation: a one-round run that
proposes one draft token and genuinely accepts none reports an acceptance
rate of `1/4` (the substituted token counts in the numerator and the
denominator hardcodes `rounds * 4`), not `0/1 = 0`. -/
theorem C6_gpt2_rate_counterexample :
    (gptGenerate ⟨4, 10, 1000000⟩ mZero mOne [5] 1).map
      (fun st => (st.metrics, (st.rounds.map GRound.genuine).sum,
                  (st.rounds.map GRound.proposed).sum)) =
      some (⟨1, 1⟩, 0, 1) ∧
    acceptanceRate ⟨1, 1⟩ = 1 / 4 ∧ (1 / 4 : ℚ) ≠ (0 : ℚ) / 1 :=
  ⟨by decide, by norm_num [acceptanceRate], by norm_num⟩

/-- Claim C7 (amended): the adaptive controller is a pure function of the
metrics and config returning the base length for every history of at most 5
completed rounds; from strictly more than 5 rounds on it returns
`min(base+1, maxK)` above rate `0.8`, `max(1, base-1)` below `0.3`, and the
base otherwise, where the rate is `accepted / (rounds * 4)`. -/
theorem C7_adaptive_characterization (cfg : GConfig) (m : GMetrics) :
    (m.totalSpeculationRounds ≤ 5 →
      getAdaptiveSpeculationLength cfg m = cfg.speculationLength) ∧
    (5 < m.totalSpeculationRounds →
      4 / 5 < (m.totalAcceptedTokens : ℚ) / ((m.totalSpeculationRounds : ℚ) * 4) →
      getAdaptiveSpeculationLength cfg m =
        min (cfg.speculationLength + 1) cfg.maxSpeculationLength) ∧
    (5 < m.totalSpeculationRounds →
      (m.totalAcceptedTokens : ℚ) / ((m.totalSpeculationRounds : ℚ) * 4) < 3 / 10 →
      getAdaptiveSpeculationLength cfg m = max 1 (cfg.speculationLength - 1)) ∧
    (5 < m.totalSpeculationRounds →
      ¬(4 / 5 < (m.totalAcceptedTokens : ℚ) /
        ((m.totalSpeculationRounds : ℚ) * 4)) →
      ¬((m.totalAcceptedTokens : ℚ) /
        ((m.totalSpeculationRounds : ℚ) * 4) < 3 / 10) →
      getAdaptiveSpeculationLength cfg m = cfg.speculationLength) := by
  have hrate : m.totalSpeculationRounds ≠ 0 →
      acceptanceRate m =
        (m.totalAcceptedTokens : ℚ) / ((m.totalSpeculationRounds : ℚ) * 4) := by
    intro hm
    rw [acceptanceRate, if_neg hm, if_pos (by omega)]
  refine ⟨?_, ?_, ?_, ?_⟩
  · intro h5
    rw [getAdaptiveSpeculationLength, if_neg (by omega)]
  · intro h5 hhigh
    rw [getAdaptiveSpeculationLength, if_pos h5, hrate (by omega), if_pos hhigh]
  · intro h5 hlow
    rw [getAdaptiveSpeculationLength, if_pos h5, hrate (by omega),
      if_neg (by intro hcon; have hcontra := hcon.trans hlow; norm_num at hcontra),
      if_pos hlow]
  · intro h5 hnh hnl
    rw [getAdaptiveSpeculationLength, if_pos h5, hrate (by omega),
      if_neg hnh, if_neg hnl]

/-- Witness for C7: after 6 rounds with 24 accepted tokens (rate 1), the
controller grows the speculation length. -/
theorem C7_adaptive_characterization_witness :
    getAdaptiveSpeculationLength ⟨4, 10, 1000000⟩ ⟨6, 24⟩ = min (4 + 1) 10 :=
  (C7_adaptive_characterization ⟨4, 10, 1000000⟩ ⟨6, 24⟩).2.1 (by decide)
    (by norm_num)

/-- Counterexample to C7 as stated: with exactly 5 rounds completed (the
claimed minimum) and a rolling rate of 1 (above the high threshold), the
controller still returns the base length 4, not `min(4+1, 10) = 5` — the
code requires strictly more than 5 rounds. -/
theorem C7_boundary_counterexample :
    5 ≤ (⟨5, 20⟩ : GMetrics).totalSpeculationRounds ∧
    4 / 5 < acceptanceRate ⟨5, 20⟩ ∧
    getAdaptiveSpeculationLength ⟨4, 10, 1000000⟩ ⟨5, 20⟩ = 4 ∧
    min (4 + 1) 10 = 5 :=
  ⟨by decide, by norm_num [acceptanceRate], by decide, by decide⟩

/-- Claim C8 (amended): a completed demo run generating `N = maxNew` tokens
makes at most `N` target calls; equality holds exactly when every round adds
a single token, i.e. every round accepts zero draft proposals (and patches
one), except that a round ending exactly at the budget carries no patch and
must then have accepted exactly one proposal — and such a round can only be
the last. -/
theorem C8_target_call_bound (target draft : Model) (context : List Nat)
    (maxNew k : Nat) (r : SpecResult)
    (h : speculative_decode target draft context maxNew k = some r)
    (hN : r.generated.length = maxNew) :
    r.targetCalls ≤ maxNew ∧
    (r.targetCalls = maxNew ↔
      ∀ rd ∈ r.rounds,
        (rd.patched = true ∧ rd.accepted = 0) ∨
        (rd.patched = false ∧ rd.accepted = 1)) ∧
    (∀ rd ∈ r.rounds, rd.added = rd.accepted + (if rd.patched then 1 else 0)) ∧
    (∀ rd ∈ r.rounds.dropLast, rd.patched = true) := by
  obtain ⟨hinv, hlen⟩ := specLoop_some maxNew initSpec r (specInv_init maxNew) h
  obtain ⟨ic, ig, ia, il, ib, irs, ipat, idl⟩ := hinv
  have hone : ∀ x ∈ r.rounds.map DemoRound.added, 1 ≤ x := by
    intro x hx
    obtain ⟨rd, hrd, rfl⟩ := List.mem_map.mp hx
    exact (irs rd hrd).2.1
  have hsum : maxNew = (r.rounds.map DemoRound.added).sum := by rw [← hN, il]
  have hlenmap : (r.rounds.map DemoRound.added).length = r.rounds.length :=
    List.length_map _ _
  refine ⟨?_, ?_, fun rd hrd => (irs rd hrd).2.2, idl⟩
  · rw [ic, hsum, ← hlenmap]
    exact length_le_sum_of_one_le _ hone
  · rw [ic, hsum, ← hlenmap, length_eq_sum_iff _ hone]
    constructor
    · intro hall rd hrd
      have h1 : rd.added = 1 := hall rd.added (List.mem_map.mpr ⟨rd, hrd, rfl⟩)
      have hadd := (irs rd hrd).2.2
      cases hb : rd.patched with
      | true =>
        rw [hb] at hadd
        simp at hadd
        exact Or.inl ⟨rfl, by omega⟩
      | false =>
        rw [hb] at hadd
        simp at hadd
        exact Or.inr ⟨rfl, by omega⟩
    · intro hall x hx
      obtain ⟨rd, hrd, rfl⟩ := List.mem_map.mp hx
      have hadd := (irs rd hrd).2.2
      rcases hall rd hrd with ⟨hb, ha⟩ | ⟨hb, ha⟩
      · rw [hb] at hadd
        simp at hadd
        omega
      · rw [hb] at hadd
        simp at hadd
        omega

/-- Witness for C8 at the concrete run `speculative_decode mZero mZero
[10, 20] 2 4` (two tokens generated, one target call). -/
theorem C8_target_call_bound_witness : demoRunExample.targetCalls ≤ 2 :=
  (C8_target_call_bound mZero mZero [10, 20] 2 4 demoRunExample (by decide)
    (by decide)).1

/-- Counterexample to C8 as stated: a run whose single round ACCEPTS one
draft proposal (not zero) and still uses exactly `N = 1` target calls — the
final round exhausted the budget with an accepted proposal and no patch, so
"equality exactly when every round accepts zero proposals" is false. -/
theorem C8_equality_counterexample :
    (speculative_decode mZero mZero [0] 1 1).map
      (fun r => (r.generated.length, r.targetCalls,
                 r.rounds.map DemoRound.accepted)) =
      some (1, 1, [1]) := by decide

/-- Claim C9 (amended): `_validate_config` fails fast at construction on a
speculation length outside `[1, maxK]`, and succeeds for an in-range length
with positive temperature and known dtype — regardless of
`min_acceptance_rate`, which is never validated. -/
theorem C9_config_validation (c : SpeculativeDecodingConfig) :
    (¬(1 ≤ c.speculationLength ∧
        c.speculationLength ≤ c.maxSpeculationLength) →
      validateConfig c = Except.error "speculation_length out of range") ∧
    (1 ≤ c.speculationLength → c.speculationLength ≤ c.maxSpeculationLength →
      0 < c.temperature →
      (c.modelDtype = "float16" ∨ c.modelDtype = "bfloat16" ∨
        c.modelDtype = "float32") →
      validateConfig c = Except.ok ()) := by
  constructor
  · intro hbad
    rw [validateConfig, if_pos hbad]
  · intro h1 h2 h3 h4
    rw [validateConfig, if_neg (not_not_intro ⟨h1, h2⟩),
      if_neg (not_le.mpr h3), if_neg (not_not_intro h4)]

/-- Witness for C9: a zero speculation length is rejected and an in-range
configuration is accepted. -/
theorem C9_config_validation_witness :
    validateConfig ⟨0, 10, 1, "float16", 1 / 10⟩ =
      Except.error "speculation_length out of range" ∧
    validateConfig ⟨4, 10, 1, "float16", 1 / 10⟩ = Except.ok () :=
  ⟨(C9_config_validation ⟨0, 10, 1, "float16", 1 / 10⟩).1 (by decide),
   (C9_config_validation ⟨4, 10, 1, "float16", 1 / 10⟩).2 (by decide)
     (by decide) (by decide) (Or.inl rfl)⟩

/-- Counterexample to C9 as stated: a configuration whose
`min_acceptance_rate` threshold is non-positive (−1) constructs successfully
— no validation error is raised for non-positive thresholds. -/
theorem C9_threshold_not_validated :
    (⟨4, 10, 1, "float16", -1⟩ :
        SpeculativeDecodingConfig).minAcceptanceRate ≤ 0 ∧
    validateConfig ⟨4, 10, 1, "float16", -1⟩ = Except.ok () := by
  constructor
  · norm_num
  · rw [validateConfig, if_neg (by decide), if_neg (by norm_num),
      if_neg (by decide)]

/-- Claim C10 (amended): `greedy_decode` returns exactly `n` new tokens and
`n` model calls for every model and nonempty context; `speculative_decode`
returns exactly `n` new tokens whenever it returns at all (but may crash,
see the counterexample). -/
theorem C10_exact_output_length :
    (∀ (f : Model) (context : List Nat) (n : Nat), context ≠ [] →
      (greedy_decode f context n).map (fun q => (q.1.length, q.2)) =
        some (n, n)) ∧
    (∀ (target draft : Model) (context : List Nat) (n k : Nat)
      (r : SpecResult),
      speculative_decode target draft context n k = some r →
      r.generated.length = n) := by
  constructor
  · intro f context n hne
    obtain ⟨out, hout, hlen⟩ := greedyLoop_length f n context hne
    rw [greedy_decode, hout]
    simp only [Option.map_some', Option.some.injEq, Prod.mk.injEq,
      List.length_drop, hlen]
    exact ⟨by omega, trivial⟩
  · intro target draft context n k r h
    exact (specLoop_some n initSpec r (specInv_init n) h).2

/-- Witness for C10 at concrete inputs. -/
theorem C10_exact_output_length_witness :
    (greedy_decode mZero [0] 2).map (fun q => (q.1.length, q.2)) =
      some (2, 2) ∧
    demoRunExample.generated.length = 2 :=
  ⟨C10_exact_output_length.1 mZero [0] 2 (by decide),
   C10_exact_output_length.2 mZero mZero [10, 20] 2 4 demoRunExample
     (by decide)⟩

/-- Counterexample to C10 as stated: with the constant model as target and
draft, context `[0]`, `k = 1` and budget 2, the first round accepts its only
proposal and the patch step indexes out of range — `speculative_decode`
raises instead of returning 2 tokens. -/
theorem C10_spec_crash_counterexample :
    speculative_decode mZero mZero [0] 2 1 = none := by decide

end SpecDec
